import Mathlib

/-!
Shallow embedding of the cockroachdb-replication-layer simulation
(`src/command.h`, `src/node.h`, `src/distribution_layer.cpp`).

Modelling conventions:
* `std::map<int, T>` is modelled by `Mp T := List (Int × T)` kept sorted by
  key with distinct keys (`MpWF`); `mset` / `mget` / `mcontains` / `merase`
  mirror `operator[]=`, lookup, `contains` and `erase`.
* `std::set<int>` (the replica id set) is modelled by a sorted duplicate-free
  `List Int` built with `sinsert`; C++ set iteration order is the list order.
* A `Node` object carries the fields of the C++ class; the cluster is the
  function `ClusterState : Int → Node` standing for the shared peer directory
  `nodes_` (the constructor hands the same directory to every node).
* `cout` diagnostics are ignored; `int` return codes are `Int` (errors are
  `-1` exactly as in the source).
* The unbounded forwarding recursion of `Node::SendCommand` is made total
  with an explicit `fuel` argument; in a bootstrapped cluster one forwarding
  hop suffices, so any `fuel ≥ 2` reproduces the C++ behaviour.
* `rand()` draws of the bootstrap code are a parameter `leaders : Nat → Nat`
  (the value of `rand()` used for range `i`), and the global `MAX_KEY` is a
  parameter `maxKey` (the source initialises it to 100 and never writes it).
-/

/-- Keyed association list standing for a `std::map<int, T>`. -/
abbrev Mp (α : Type) : Type := List (Int × α)

/-- Well-formedness of a map: keys strictly increasing (the `std::map`
representation invariant). -/
def MpWF {α : Type} (m : Mp α) : Prop :=
  List.Pairwise (fun p q : Int × α => p.1 < q.1) m

instance {α : Type} (m : Mp α) : Decidable (MpWF m) := by
  unfold MpWF; infer_instance

/-- Insertion keeping the list sorted, replacing an existing binding:
`map[k] = v`. -/
def mset {α : Type} : Mp α → Int → α → Mp α
  | [], k, v => [(k, v)]
  | (a, w) :: rest, k, v =>
      if k < a then (k, v) :: (a, w) :: rest
      else if k = a then (k, v) :: rest
      else (a, w) :: mset rest k v

/-- Lookup of a key: `map.find(k)`. -/
def mget {α : Type} : Mp α → Int → Option α
  | [], _ => none
  | (a, w) :: rest, k => if k = a then some w else mget rest k

/-- Key membership: `map.contains(k)`. -/
def mcontains {α : Type} (m : Mp α) (k : Int) : Bool :=
  (mget m k).isSome

/-- Removal of a key: `map.erase(k)`. -/
def merase {α : Type} : Mp α → Int → Mp α
  | [], _ => []
  | (a, w) :: rest, k => if k = a then rest else (a, w) :: merase rest k

/-- The entry with the greatest key `≤ k` of a sorted map: the
`upper_bound(k)` / decrement idiom of `Node::SendCommand` (returns the last
entry in list order whose key is at most `k`). -/
def floorLookup {α : Type} : Mp α → Int → Option (Int × α)
  | [], _ => none
  | (a, w) :: rest, k =>
      if a ≤ k then
        match floorLookup rest k with
        | none => some (a, w)
        | some q => some q
      else floorLookup rest k

/-- Sorted duplicate-free insertion: `std::set<int>::insert`. -/
def sinsert : List Int → Int → List Int
  | [], k => [k]
  | a :: rest, k =>
      if k < a then k :: a :: rest
      else if k = a then a :: rest
      else a :: sinsert rest k

/-- The operation kinds of `command.h`. -/
inductive OpType where
  | CREATE
  | READ
  | UPDATE
  | DELETE
deriving DecidableEq

/-- A `Command` of `command.h`: one low-level change to the store. -/
structure Command where
  type : OpType
  key : Int
  value : Int
deriving DecidableEq

/-- A `RangeDescriptor` of `node.h`. -/
structure RangeDescriptor where
  id : Int
  start : Int
  «end» : Int
  leader_id : Int
  leaseholder_id : Int
  replicas_id : List Int
deriving DecidableEq

/-- The mutable state of a `Node` object of `node.h`. -/
structure Node where
  id : Int
  interval_start_to_range_descriptor : Mp RangeDescriptor
  key_value_store : Mp Int
  log : List Command
deriving DecidableEq

/-- The cluster: node index to node object (the shared `nodes_` directory). -/
def ClusterState : Type := Int → Node

/-- Replacement of one node object of the cluster. -/
def setNode (st : ClusterState) (i : Int) (nd : Node) : ClusterState :=
  fun j => if j = i then nd else st j

/-- `Node::ApplyCreate` acting on the `key_value_store_` member. -/
def ApplyCreate (s : Mp Int) (key value : Int) : Int × Mp Int :=
  if mcontains s key then (-1, s) else (0, mset s key value)

/-- `Node::ApplyRead` (no mutation, returns the value or `-1`). -/
def ApplyRead (s : Mp Int) (key : Int) : Int :=
  if mcontains s key then
    match mget s key with
    | some v => v
    | none => -1
  else -1

/-- `Node::ApplyUpdate`. -/
def ApplyUpdate (s : Mp Int) (key new_value : Int) : Int × Mp Int :=
  if mcontains s key then (0, mset s key new_value) else (-1, s)

/-- `Node::ApplyDelete`. -/
def ApplyDelete (s : Mp Int) (key : Int) : Int × Mp Int :=
  if mcontains s key then (0, merase s key) else (-1, s)

/-- `Node::ApplyCommand`: the per-node apply with its guards (read shortcut,
non-empty log, replica membership, key in range, structural match against the
last log entry, removal, then the state-machine switch). -/
def ApplyCommand (nd : Node) (c : Command) (rd : RangeDescriptor) : Int × Node :=
  if c.type = OpType.READ then (ApplyRead nd.key_value_store c.key, nd)
  else if nd.log = [] then (-1, nd)
  else if ¬ nd.id ∈ rd.replicas_id then (-1, nd)
  else if ¬ (c.key ≥ rd.start ∧ c.key ≤ rd.«end») then (-1, nd)
  else
    match nd.log.getLast? with
    | none => (-1, nd)
    | some last_log_entry =>
      if c.type ≠ last_log_entry.type ∨ c.key ≠ last_log_entry.key
          ∨ c.value ≠ last_log_entry.value then (-1, nd)
      else
        let nd1 : Node := { nd with log := nd.log.dropLast }
        match c.type with
        | OpType.CREATE =>
            let p := ApplyCreate nd1.key_value_store c.key c.value
            (p.1, { nd1 with key_value_store := p.2 })
        | OpType.UPDATE =>
            let p := ApplyUpdate nd1.key_value_store c.key c.value
            (p.1, { nd1 with key_value_store := p.2 })
        | OpType.DELETE =>
            let p := ApplyDelete nd1.key_value_store c.key
            (p.1, { nd1 with key_value_store := p.2 })
        | OpType.READ => (-1, nd1)

/-- `Node::PushCommandToLog`. -/
def PushCommandToLog (nd : Node) (c : Command) : Node :=
  { nd with log := nd.log ++ [c] }

/-- `ApplyCommand` invoked on the node object at index `nid` of the cluster. -/
def ApplyCommandAt (st : ClusterState) (nid : Int) (c : Command)
    (rd : RangeDescriptor) : Int × ClusterState :=
  let p := ApplyCommand (st nid) c rd
  (p.1, setNode st nid p.2)

/-- `PushCommandToLog` invoked on the node object at index `nid`. -/
def PushCommandToLogAt (st : ClusterState) (nid : Int) (c : Command) : ClusterState :=
  setNode st nid (PushCommandToLog (st nid) c)

/-- The commit loop of `Node::ProcessCommand`: apply on each remaining
replica in set order, returning the first negative result immediately. -/
def ApplyLoop (st : ClusterState) (rs : List Int) (c : Command)
    (rd : RangeDescriptor) (acc : Int) : Int × ClusterState :=
  match rs with
  | [] => (acc, st)
  | r :: rest =>
      let p := ApplyCommandAt st r c rd
      if p.1 < 0 then p else ApplyLoop p.2 rest c rd p.1

/-- `Node::ProcessCommand`, executing on the node object at index `nid`
(leader check, read shortcut, replicate to every replica's log, apply on the
leader, then commit on the remaining replicas). -/
def ProcessCommand (st : ClusterState) (nid : Int) (c : Command)
    (rd : RangeDescriptor) : Int × ClusterState :=
  if rd.leader_id ≠ (st nid).id then (-1, st)
  else if c.type = OpType.READ then ApplyCommandAt st nid c rd
  else
    let st1 := PushCommandToLogAt st nid c
    let others := rd.replicas_id.filter (fun r => r ≠ (st nid).id)
    let st2 := others.foldl (fun s r => PushCommandToLogAt s r c) st1
    let q := ApplyCommandAt st2 nid c rd
    if q.1 < 0 then q
    else ApplyLoop q.2 others c rd q.1

/-- `Node::SendCommandToLeader`, executing at index `nid` (leaseholder check,
then `ProcessCommand` on the range's leader). -/
def SendCommandToLeader (st : ClusterState) (nid : Int) (c : Command)
    (rd : RangeDescriptor) : Int × ClusterState :=
  if rd.leaseholder_id ≠ (st nid).id then (-1, st)
  else ProcessCommand st rd.leader_id c rd

/-- `Node::SendCommand`, executing at index `nid`: range lookup by floor
search, then either act as leaseholder or forward to the leaseholder.  The
`fuel` argument bounds the (in C++ unbounded) forwarding recursion; every
node of a bootstrapped cluster holds the identical table, so one hop
suffices and any `fuel ≥ 2` reproduces the source behaviour. -/
def SendCommand (fuel : Nat) (st : ClusterState) (nid : Int) (c : Command) :
    Int × ClusterState :=
  match fuel with
  | 0 => (-1, st)
  | fuel + 1 =>
    if (st nid).interval_start_to_range_descriptor = ([] : Mp RangeDescriptor) then (-1, st)
    else
      match floorLookup (st nid).interval_start_to_range_descriptor c.key with
      | none => (-1, st)
      | some p =>
        if p.2.leaseholder_id = (st nid).id then SendCommandToLeader st nid c p.2
        else SendCommand fuel st p.2.leaseholder_id c

/-- The replica id set built for one range by the `DistributionLayer`
constructor: leader, leaseholder, then `replication_factor - 2` further ids
round-robin from the leaseholder's successor. -/
def mkReplicas (number_of_nodes rf : Nat) (leader_id leaseholder_id : Nat) :
    List Int :=
  let rep0 := sinsert (sinsert [] (leader_id : Int)) (leaseholder_id : Int)
  let next0 := (leaseholder_id + 1) % number_of_nodes
  ((List.range (rf - 2)).foldl
    (fun (p : List Int × Nat) _ => (sinsert p.1 (p.2 : Int), (p.2 + 1) % number_of_nodes))
    (rep0, next0)).1

/-- The `RangeDescriptor` built for range index `i` by the constructor loop
of `distribution_layer.cpp`; `draw` is the value the call to `rand()`
returned for this range. -/
def mkDesc (number_of_nodes rf : Nat) (maxKey : Int) (draw : Nat) (i : Nat) :
    RangeDescriptor :=
  let total_ranges : Nat := number_of_nodes * 2
  let range_size : Int := maxKey / (total_ranges : Int)
  let leader : Nat := draw % number_of_nodes
  let leaseholder : Nat := (leader + 1) % number_of_nodes
  { id := (i : Int)
    start := (i : Int) * range_size
    «end» := if i = total_ranges - 1 then maxKey else ((i : Int) + 1) * range_size - 1
    leader_id := (leader : Int)
    leaseholder_id := (leaseholder : Int)
    replicas_id := mkReplicas number_of_nodes rf leader leaseholder }

/-- The range table built by the constructor: the descriptors of all
`2 × number_of_nodes` ranges inserted into the `std::map` keyed by `start`. -/
def buildTable (number_of_nodes rf : Nat) (maxKey : Int) (leaders : Nat → Nat) :
    Mp RangeDescriptor :=
  (List.range (number_of_nodes * 2)).foldl
    (fun m i =>
      let d := mkDesc number_of_nodes rf maxKey (leaders i) i
      mset m d.start d)
    []

/-- The `DistributionLayer` constructor: `none` models the thrown exception
when the bootstrap constraints are violated; otherwise every node object is
created with its index as id and an identical copy of the range table. -/
def DistributionLayerInit (number_of_nodes replication_factor : Int)
    (maxKey : Int) (leaders : Nat → Nat) : Option ClusterState :=
  if number_of_nodes < 3 ∨ replication_factor < 3
      ∨ replication_factor > number_of_nodes then none
  else
    some (fun i =>
      { id := i
        interval_start_to_range_descriptor :=
          buildTable number_of_nodes.toNat replication_factor.toNat maxKey leaders
        key_value_store := []
        log := [] })

namespace DistributionLayer

/-- `DistributionLayer::Insert`: client validation, then a `CREATE` command
sent to the chosen node. -/
def Insert (fuel : Nat) (maxKey : Int) (st : ClusterState) (chosen : Int)
    (key value : Int) : Int × ClusterState :=
  if key < 0 ∨ value < 0 then (-1, st)
  else if key > maxKey then (-1, st)
  else SendCommand fuel st chosen { type := OpType.CREATE, key := key, value := value }

/-- The command `DistributionLayer::Insert` dispatches, `none` when client
validation rejects the arguments before any routing attempt. -/
def InsertDispatch (maxKey key value : Int) : Option Command :=
  if key < 0 ∨ value < 0 then none
  else if key > maxKey then none
  else some { type := OpType.CREATE, key := key, value := value }

/-- `DistributionLayer::Get` (the brace-initialised command has `value = 0`). -/
def Get (fuel : Nat) (maxKey : Int) (st : ClusterState) (chosen : Int)
    (key : Int) : Int × ClusterState :=
  if key < 0 then (-1, st)
  else if key > maxKey then (-1, st)
  else SendCommand fuel st chosen { type := OpType.READ, key := key, value := 0 }

/-- The command `DistributionLayer::Get` dispatches, `none` on validation
failure. -/
def GetDispatch (maxKey key : Int) : Option Command :=
  if key < 0 then none
  else if key > maxKey then none
  else some { type := OpType.READ, key := key, value := 0 }

/-- `DistributionLayer::Update`. -/
def Update (fuel : Nat) (maxKey : Int) (st : ClusterState) (chosen : Int)
    (key new_value : Int) : Int × ClusterState :=
  if key < 0 ∨ new_value < 0 then (-1, st)
  else if key > maxKey then (-1, st)
  else SendCommand fuel st chosen { type := OpType.UPDATE, key := key, value := new_value }

/-- The command `DistributionLayer::Update` dispatches, `none` on validation
failure. -/
def UpdateDispatch (maxKey key new_value : Int) : Option Command :=
  if key < 0 ∨ new_value < 0 then none
  else if key > maxKey then none
  else some { type := OpType.UPDATE, key := key, value := new_value }

/-- `DistributionLayer::Remove`. -/
def Remove (fuel : Nat) (maxKey : Int) (st : ClusterState) (chosen : Int)
    (key : Int) : Int × ClusterState :=
  if key < 0 then (-1, st)
  else if key > maxKey then (-1, st)
  else SendCommand fuel st chosen { type := OpType.DELETE, key := key, value := 0 }

/-- The command `DistributionLayer::Remove` dispatches, `none` on validation
failure. -/
def RemoveDispatch (maxKey key : Int) : Option Command :=
  if key < 0 then none
  else if key > maxKey then none
  else some { type := OpType.DELETE, key := key, value := 0 }

end DistributionLayer

/-- The range table of the concrete five-node cluster used by the witnesses
below (every `rand()` draw equal to `0`, so every range has leader `0`,
leaseholder `1` and replica set `{0, 1, 2}`). -/
def tblA : Mp RangeDescriptor := buildTable 5 3 100 (fun _ => 0)

/-- Freshly bootstrapped five-node cluster over `tblA` (all stores and logs
empty). -/
def stA : ClusterState := fun i => Node.mk i tblA [] []

/-- A cluster over `tblA` in which only the leaseholder (node `1`) stores the
pair `(5, 7)`. -/
def stB : ClusterState :=
  fun i => Node.mk i tblA (if i = 1 then [((5 : Int), (7 : Int))] else []) []

/-- A cluster over `tblA` in which the leader (node `0`) stores the pair
`(101, 42)`; the key `101` lies beyond the end `100` of the last range. -/
def stC : ClusterState :=
  fun i => Node.mk i tblA (if i = 0 then [((101 : Int), (42 : Int))] else []) []

/-- A cluster over `tblA` in which only the leader (node `0`) stores the pair
`(5, 9)`. -/
def stD : ClusterState :=
  fun i => Node.mk i tblA (if i = 0 then [((5 : Int), (9 : Int))] else []) []

/-- The state-machine switch at the end of `Node::ApplyCommand`, acting on
the local store. -/
def storeStep (s : Mp Int) (c : Command) : Int × Mp Int :=
  match c.type with
  | OpType.CREATE => ApplyCreate s c.key c.value
  | OpType.UPDATE => ApplyUpdate s c.key c.value
  | OpType.DELETE => ApplyDelete s c.key
  | OpType.READ => (-1, s)

/-- Failure condition of the state-machine switch for a write command:
`CREATE` of a present key, `UPDATE`/`DELETE` of an absent key. -/
def StateMachineFails (s : Mp Int) (c : Command) : Prop :=
  match c.type with
  | OpType.CREATE => mcontains s c.key = true
  | OpType.READ => False
  | _ => mcontains s c.key = false

instance (s : Mp Int) (c : Command) : Decidable (StateMachineFails s c) := by
  unfold StateMachineFails
  cases c.type <;> dsimp only <;> infer_instance

/-- The `range_size` computed by the bootstrap loop. -/
def rangeSize (number_of_nodes : Nat) (maxKey : Int) : Int :=
  maxKey / ((number_of_nodes * 2 : Nat) : Int)

/-! Basic facts about the map model. -/

theorem mget_eq_none_of_forall {α : Type} (m : Mp α) (k : Int)
    (h : ∀ p ∈ m, k ≠ p.1) : mget m k = none := by
  induction m with
  | nil => rfl
  | cons p rest ih =>
    obtain ⟨a, w⟩ := p
    have hka : k ≠ a := h (a, w) (List.mem_cons_self _ _)
    simp only [mget, if_neg hka]
    exact ih fun q hq => h q (List.mem_cons_of_mem _ hq)

theorem mget_mset_self {α : Type} (m : Mp α) (k : Int) (v : α) :
    mget (mset m k v) k = some v := by
  induction m with
  | nil => simp [mset, mget]
  | cons p rest ih =>
    obtain ⟨a, w⟩ := p
    by_cases h1 : k < a
    · simp [mset, mget, h1]
    · by_cases h2 : k = a
      · simp [mset, mget, h1, h2]
      · simp [mset, mget, h1, h2, ih]

theorem mget_mset_ne {α : Type} (m : Mp α) (k : Int) (v : α) (k2 : Int)
    (h : k2 ≠ k) : mget (mset m k v) k2 = mget m k2 := by
  induction m with
  | nil => simp [mset, mget, h]
  | cons p rest ih =>
    obtain ⟨a, w⟩ := p
    by_cases h1 : k < a
    · simp [mset, mget, h1, h]
    · by_cases h2 : k = a
      · subst h2
        simp [mset, mget, h1, h]
      · simp only [mset, if_neg h1, if_neg h2, mget]
        by_cases h3 : k2 = a
        · simp [h3]
        · simp [h3, ih]

theorem mem_mset {α : Type} (m : Mp α) (k : Int) (v : α) (p : Int × α)
    (h : p ∈ mset m k v) : p = (k, v) ∨ p ∈ m := by
  induction m with
  | nil =>
    simp only [mset] at h
    exact Or.inl (List.mem_singleton.mp h)
  | cons q rest ih =>
    obtain ⟨a, w⟩ := q
    by_cases h1 : k < a
    · simp only [mset, if_pos h1] at h
      rcases List.mem_cons.mp h with h2 | h2
      · exact Or.inl h2
      · exact Or.inr h2
    · by_cases h2 : k = a
      · simp only [mset, if_neg h1, if_pos h2] at h
        rcases List.mem_cons.mp h with h3 | h3
        · exact Or.inl h3
        · exact Or.inr (List.mem_cons_of_mem _ h3)
      · simp only [mset, if_neg h1, if_neg h2] at h
        rcases List.mem_cons.mp h with h3 | h3
        · exact Or.inr (h3 ▸ List.mem_cons_self _ _)
        · rcases ih h3 with h4 | h4
          · exact Or.inl h4
          · exact Or.inr (List.mem_cons_of_mem _ h4)

theorem MpWF_mset {α : Type} (m : Mp α) (k : Int) (v : α) (h : MpWF m) :
    MpWF (mset m k v) := by
  induction m with
  | nil => simp [mset, MpWF]
  | cons p rest ih =>
    obtain ⟨a, w⟩ := p
    unfold MpWF at h
    rw [List.pairwise_cons] at h
    obtain ⟨ha, hrest⟩ := h
    by_cases h1 : k < a
    · unfold MpWF
      simp only [mset, if_pos h1]
      rw [List.pairwise_cons]
      constructor
      · intro q hq
        rcases List.mem_cons.mp hq with h3 | h3
        · simpa [h3] using h1
        · exact lt_trans h1 (ha q h3)
      · rw [List.pairwise_cons]
        exact ⟨ha, hrest⟩
    · by_cases h2 : k = a
      · unfold MpWF
        simp only [mset, if_neg h1, if_pos h2]
        rw [List.pairwise_cons]
        subst h2
        exact ⟨ha, hrest⟩
      · unfold MpWF
        simp only [mset, if_neg h1, if_neg h2]
        rw [List.pairwise_cons]
        constructor
        · intro q hq
          rcases mem_mset rest k v q hq with h3 | h3
          · subst h3
            simp only []
            omega
          · exact ha q h3
        · exact ih hrest

theorem merase_sublist {α : Type} (m : Mp α) (k : Int) :
    List.Sublist (merase m k) m := by
  induction m with
  | nil => simp [merase]
  | cons p rest ih =>
    obtain ⟨a, w⟩ := p
    by_cases h1 : k = a
    · simp only [merase, if_pos h1]
      exact List.sublist_cons_self _ _
    · simp only [merase, if_neg h1]
      exact List.Sublist.cons₂ _ ih

theorem MpWF_merase {α : Type} (m : Mp α) (k : Int) (h : MpWF m) :
    MpWF (merase m k) :=
  List.Pairwise.sublist (merase_sublist m k) h

theorem mget_merase_ne {α : Type} (m : Mp α) (k k2 : Int) (h : k2 ≠ k) :
    mget (merase m k) k2 = mget m k2 := by
  induction m with
  | nil => rfl
  | cons p rest ih =>
    obtain ⟨a, w⟩ := p
    by_cases h1 : k = a
    · subst h1
      simp [merase, mget, h]
    · simp only [merase, if_neg h1, mget]
      by_cases h2 : k2 = a
      · simp [h2]
      · simp [h2, ih]

theorem mget_merase_self {α : Type} (m : Mp α) (k : Int) (h : MpWF m) :
    mget (merase m k) k = none := by
  induction m with
  | nil => rfl
  | cons p rest ih =>
    obtain ⟨a, w⟩ := p
    unfold MpWF at h
    rw [List.pairwise_cons] at h
    obtain ⟨ha, hrest⟩ := h
    by_cases h1 : k = a
    · subst h1
      simp only [merase, if_pos rfl]
      exact mget_eq_none_of_forall rest k fun q hq => ne_of_lt (ha q hq)
    · simp only [merase, if_neg h1, mget, if_neg h1]
      exact ih hrest

/-! Claim C5: local state-machine semantics. -/

/-- C5: on a well-formed local store, `ApplyCreate` of a present key fails
with the error code and leaves the store unchanged; `ApplyRead`,
`ApplyUpdate` and `ApplyDelete` of an absent key fail and leave the store
unchanged; otherwise `ApplyCreate` inserts the pair, `ApplyRead` returns the
stored value without mutation, `ApplyUpdate` overwrites the value and
`ApplyDelete` removes the key, each leaving every other key untouched. -/
theorem claim_C5_state_machine (s : Mp Int) (k v : Int) (hwf : MpWF s) :
    (mcontains s k = true → ApplyCreate s k v = (-1, s))
    ∧ (mcontains s k = false →
        ApplyRead s k = -1 ∧ ApplyUpdate s k v = (-1, s) ∧ ApplyDelete s k = (-1, s))
    ∧ (mcontains s k = false →
        ApplyCreate s k v = (0, mset s k v) ∧ mget (mset s k v) k = some v)
    ∧ (∀ w, mget s k = some w → ApplyRead s k = w)
    ∧ (mcontains s k = true →
        ApplyUpdate s k v = (0, mset s k v) ∧ mget (mset s k v) k = some v
        ∧ ApplyDelete s k = (0, merase s k) ∧ mget (merase s k) k = none)
    ∧ (∀ k2, k2 ≠ k →
        mget (mset s k v) k2 = mget s k2 ∧ mget (merase s k) k2 = mget s k2) := by
  refine ⟨?_, ?_, ?_, ?_, ?_, ?_⟩
  · intro h
    simp [ApplyCreate, h]
  · intro h
    simp [ApplyRead, ApplyUpdate, ApplyDelete, h]
  · intro h
    simp [ApplyCreate, h, mget_mset_self]
  · intro w hw
    simp [ApplyRead, mcontains, hw]
  · intro h
    simp [ApplyUpdate, ApplyDelete, h, mget_mset_self, mget_merase_self s k hwf]
  · intro k2 h2
    exact ⟨mget_mset_ne s k v k2 h2, mget_merase_ne s k k2 h2⟩

/-- Witness for C5 at the store holding only `(1, 5)` and the key `1`. -/
theorem claim_C5_state_machine_witness :
    (mcontains [((1 : Int), (5 : Int))] 1 = true →
      ApplyCreate [((1 : Int), (5 : Int))] 1 9 = (-1, [(1, 5)]))
    ∧ (mcontains [((1 : Int), (5 : Int))] 1 = false →
        ApplyRead [((1 : Int), (5 : Int))] 1 = -1
        ∧ ApplyUpdate [((1 : Int), (5 : Int))] 1 9 = (-1, [(1, 5)])
        ∧ ApplyDelete [((1 : Int), (5 : Int))] 1 = (-1, [(1, 5)]))
    ∧ (mcontains [((1 : Int), (5 : Int))] 1 = false →
        ApplyCreate [((1 : Int), (5 : Int))] 1 9 = (0, mset [(1, 5)] 1 9)
        ∧ mget (mset [((1 : Int), (5 : Int))] 1 9) 1 = some 9)
    ∧ (∀ w, mget [((1 : Int), (5 : Int))] 1 = some w →
        ApplyRead [((1 : Int), (5 : Int))] 1 = w)
    ∧ (mcontains [((1 : Int), (5 : Int))] 1 = true →
        ApplyUpdate [((1 : Int), (5 : Int))] 1 9 = (0, mset [(1, 5)] 1 9)
        ∧ mget (mset [((1 : Int), (5 : Int))] 1 9) 1 = some 9
        ∧ ApplyDelete [((1 : Int), (5 : Int))] 1 = (0, merase [(1, 5)] 1)
        ∧ mget (merase [((1 : Int), (5 : Int))] 1) 1 = none)
    ∧ (∀ k2, k2 ≠ 1 →
        mget (mset [((1 : Int), (5 : Int))] 1 9) k2 = mget [(1, 5)] k2
        ∧ mget (merase [((1 : Int), (5 : Int))] 1) k2 = mget [(1, 5)] k2) :=
  claim_C5_state_machine [((1 : Int), (5 : Int))] 1 9 (by decide)

/-! Claim C8: bootstrap constraint checking. -/

/-- C8: `DistributionLayer` construction succeeds exactly when
`node_count ≥ 3`, `replication_factor ≥ 3` and
`replication_factor ≤ node_count`. -/
theorem claim_C8_bootstrap_guard (number_of_nodes replication_factor maxKey : Int)
    (leaders : Nat → Nat) :
    (DistributionLayerInit number_of_nodes replication_factor maxKey leaders).isSome
      ↔ (3 ≤ number_of_nodes ∧ 3 ≤ replication_factor
          ∧ replication_factor ≤ number_of_nodes) := by
  unfold DistributionLayerInit
  split_ifs with h
  · simp only [Option.isSome_none, Bool.false_eq_true, false_iff]
    omega
  · simp only [Option.isSome_some, true_iff]
    omega

/-! Claim C7: client-side validation. -/

/-- C7: a client call with a negative key, a key above `MAX_KEY`, or (for
`Insert` and `Update`) a negative value returns the error code with the
cluster unchanged and dispatches no command to any node. -/
theorem claim_C7_client_validation (fuel : Nat) (maxKey : Int) (st : ClusterState)
    (chosen key value : Int) :
    (key < 0 ∨ maxKey < key ∨ value < 0 →
      DistributionLayer.Insert fuel maxKey st chosen key value = (-1, st)
      ∧ DistributionLayer.InsertDispatch maxKey key value = none
      ∧ DistributionLayer.Update fuel maxKey st chosen key value = (-1, st)
      ∧ DistributionLayer.UpdateDispatch maxKey key value = none)
    ∧ (key < 0 ∨ maxKey < key →
      DistributionLayer.Get fuel maxKey st chosen key = (-1, st)
      ∧ DistributionLayer.GetDispatch maxKey key = none
      ∧ DistributionLayer.Remove fuel maxKey st chosen key = (-1, st)
      ∧ DistributionLayer.RemoveDispatch maxKey key = none) := by
  constructor
  · intro h
    unfold DistributionLayer.Insert DistributionLayer.InsertDispatch
      DistributionLayer.Update DistributionLayer.UpdateDispatch
    refine ⟨?_, ?_, ?_, ?_⟩ <;> (split_ifs with h1 h2 <;> first | rfl | omega)
  · intro h
    unfold DistributionLayer.Get DistributionLayer.GetDispatch
      DistributionLayer.Remove DistributionLayer.RemoveDispatch
    refine ⟨?_, ?_, ?_, ?_⟩ <;> (split_ifs with h1 h2 <;> first | rfl | omega)

/-- Witness for C7 at `key = -1` on the concrete cluster `stA`. -/
theorem claim_C7_client_validation_witness :
    ((-1 : Int) < 0 ∨ (100 : Int) < -1 ∨ (7 : Int) < 0 →
      DistributionLayer.Insert 2 100 stA 0 (-1) 7 = (-1, stA)
      ∧ DistributionLayer.InsertDispatch 100 (-1) 7 = none
      ∧ DistributionLayer.Update 2 100 stA 0 (-1) 7 = (-1, stA)
      ∧ DistributionLayer.UpdateDispatch 100 (-1) 7 = none)
    ∧ ((-1 : Int) < 0 ∨ (100 : Int) < -1 →
      DistributionLayer.Get 2 100 stA 0 (-1) = (-1, stA)
      ∧ DistributionLayer.GetDispatch 100 (-1) = none
      ∧ DistributionLayer.Remove 2 100 stA 0 (-1) = (-1, stA)
      ∧ DistributionLayer.RemoveDispatch 100 (-1) = none) :=
  claim_C7_client_validation 2 100 stA 0 (-1) 7

/-! Claim C10: guards of a write apply. -/

/-- C10: a write apply on a node whose log is empty, whose id is not in the
descriptor's replica set, or whose key lies outside the descriptor's
interval returns the error code and leaves the node (store and log)
entirely unchanged. -/
theorem claim_C10_write_apply_guards (nd : Node) (c : Command)
    (rd : RangeDescriptor) (hw : c.type ≠ OpType.READ)
    (hbad : nd.log = [] ∨ ¬ nd.id ∈ rd.replicas_id
      ∨ c.key < rd.start ∨ rd.«end» < c.key) :
    ApplyCommand nd c rd = (-1, nd) := by
  unfold ApplyCommand
  rw [if_neg hw]
  by_cases hlog : nd.log = []
  · rw [if_pos hlog]
  · rw [if_neg hlog]
    by_cases hmem : nd.id ∈ rd.replicas_id
    · rw [if_neg (not_not_intro hmem)]
      have hkey : ¬ (c.key ≥ rd.start ∧ c.key ≤ rd.«end») := by
        rcases hbad with hb | hb | hb | hb
        · exact absurd hb hlog
        · exact absurd hmem hb
        · omega
        · omega
      rw [if_pos hkey]
    · rw [if_pos hmem]

/-- Witness for C10: a write on a node with an empty log. -/
theorem claim_C10_write_apply_guards_witness :
    ApplyCommand (Node.mk 0 tblA [] []) (Command.mk OpType.CREATE 5 7)
      (RangeDescriptor.mk 0 0 9 0 1 [0, 1, 2])
      = (-1, Node.mk 0 tblA [] []) :=
  claim_C10_write_apply_guards (Node.mk 0 tblA [] [])
    (Command.mk OpType.CREATE 5 7) (RangeDescriptor.mk 0 0 9 0 1 [0, 1, 2])
    (by decide) (Or.inl rfl)

/-! Shared facts about write applies. -/

theorem storeStep_wf (s : Mp Int) (c : Command) (hwf : MpWF s) :
    MpWF (storeStep s c).2 := by
  unfold storeStep
  cases c.type
  · unfold ApplyCreate
    split_ifs
    · exact hwf
    · exact MpWF_mset s c.key c.value hwf
  · exact hwf
  · unfold ApplyUpdate
    split_ifs
    · exact MpWF_mset s c.key c.value hwf
    · exact hwf
  · unfold ApplyDelete
    split_ifs
    · exact MpWF_merase s c.key hwf
    · exact hwf

theorem storeStep_success (s : Mp Int) (c : Command) (hw : c.type ≠ OpType.READ)
    (hwf : MpWF s) (hok : 0 ≤ (storeStep s c).1) :
    mget (storeStep s c).2 c.key
      = (if c.type = OpType.DELETE then none else some c.value) := by
  obtain ⟨t, k, v⟩ := c
  simp only at hw
  cases t
  case CREATE =>
    unfold storeStep ApplyCreate at hok ⊢
    dsimp only at hok ⊢
    rw [if_neg (by decide : ¬ (OpType.CREATE = OpType.DELETE))]
    by_cases hc : mcontains s k = true
    · rw [if_pos hc] at hok
      norm_num at hok
    · rw [if_neg hc]
      exact mget_mset_self s k v
  case READ => exact absurd rfl hw
  case UPDATE =>
    unfold storeStep ApplyUpdate at hok ⊢
    dsimp only at hok ⊢
    rw [if_neg (by decide : ¬ (OpType.UPDATE = OpType.DELETE))]
    by_cases hc : mcontains s k = true
    · rw [if_pos hc]
      exact mget_mset_self s k v
    · rw [if_neg hc] at hok
      norm_num at hok
  case DELETE =>
    unfold storeStep ApplyDelete at hok ⊢
    dsimp only at hok ⊢
    rw [if_pos (rfl : OpType.DELETE = OpType.DELETE)]
    by_cases hc : mcontains s k = true
    · rw [if_pos hc]
      exact mget_merase_self s k hwf
    · rw [if_neg hc] at hok
      norm_num at hok

/-- A write apply on a node whose log ends in the command itself, with all
guards satisfied, pops the log and runs the state-machine switch. -/
theorem ApplyCommand_write_eq (nd : Node) (c : Command) (rd : RangeDescriptor)
    (hw : c.type ≠ OpType.READ) (l : List Command) (hlog : nd.log = l ++ [c])
    (hmem : nd.id ∈ rd.replicas_id)
    (hkey : rd.start ≤ c.key ∧ c.key ≤ rd.«end») :
    ApplyCommand nd c rd =
      ((storeStep nd.key_value_store c).1,
        { nd with log := l, key_value_store := (storeStep nd.key_value_store c).2 }) := by
  unfold ApplyCommand
  rw [if_neg hw]
  have hne : nd.log ≠ [] := by
    rw [hlog]
    simp
  rw [if_neg hne, if_neg (not_not_intro hmem),
    if_neg (not_not_intro ⟨hkey.1, hkey.2⟩)]
  have hlast : nd.log.getLast? = some c := by
    rw [hlog]
    exact List.getLast?_concat l
  rw [hlast]
  dsimp only
  have hmatch : ¬ (c.type ≠ c.type ∨ c.key ≠ c.key ∨ c.value ≠ c.value) := by
    simp
  rw [if_neg hmatch]
  have hdrop : nd.log.dropLast = l := by
    rw [hlog]
    exact List.dropLast_concat
  obtain ⟨t, k, v⟩ := c
  simp only at hw
  cases t
  case CREATE => simp [storeStep, hdrop]
  case READ => exact absurd rfl hw
  case UPDATE => simp [storeStep, hdrop]
  case DELETE => simp [storeStep, hdrop]

/-- A successful write apply implies every guard held and the log ended in
the command itself. -/
theorem ApplyCommand_write_success_guards (nd : Node) (c : Command)
    (rd : RangeDescriptor) (hw : c.type ≠ OpType.READ)
    (hok : 0 ≤ (ApplyCommand nd c rd).1) :
    nd.id ∈ rd.replicas_id ∧ rd.start ≤ c.key ∧ c.key ≤ rd.«end»
      ∧ nd.log = nd.log.dropLast ++ [c] := by
  unfold ApplyCommand at hok
  rw [if_neg hw] at hok
  by_cases h1 : nd.log = []
  · rw [if_pos h1] at hok
    exact absurd hok (by norm_num)
  rw [if_neg h1] at hok
  by_cases h2 : nd.id ∈ rd.replicas_id
  swap
  · rw [if_pos h2] at hok
    exact absurd hok (by norm_num)
  rw [if_neg (not_not_intro h2)] at hok
  by_cases h3 : c.key ≥ rd.start ∧ c.key ≤ rd.«end»
  swap
  · rw [if_pos h3] at hok
    exact absurd hok (by norm_num)
  rw [if_neg (not_not_intro h3)] at hok
  have hlast : nd.log.getLast? = some (nd.log.getLast h1) :=
    List.getLast?_eq_getLast nd.log h1
  rw [hlast] at hok
  dsimp only at hok
  by_cases h4 : c.type ≠ (nd.log.getLast h1).type ∨ c.key ≠ (nd.log.getLast h1).key
      ∨ c.value ≠ (nd.log.getLast h1).value
  · rw [if_pos h4] at hok
    exact absurd hok (by norm_num)
  · push_neg at h4
    have hc : nd.log.getLast h1 = c := by
      obtain ⟨e1, e2, e3⟩ := h4
      cases c
      cases hgl : nd.log.getLast h1
      rw [hgl] at e1 e2 e3
      simp only at e1 e2 e3
      simp [e1, e2, e3]
    refine ⟨h2, h3.1, h3.2, ?_⟩
    conv_lhs => rw [← List.dropLast_concat_getLast h1, hc]

/-- A write apply for a command matching no entry of the node's log fails
and leaves the node entirely unchanged. -/
theorem ApplyCommand_write_nomatch (nd : Node) (c : Command)
    (rd : RangeDescriptor) (hw : c.type ≠ OpType.READ)
    (hno : ∀ e ∈ nd.log, e ≠ c) :
    ApplyCommand nd c rd = (-1, nd) := by
  unfold ApplyCommand
  rw [if_neg hw]
  by_cases h1 : nd.log = []
  · rw [if_pos h1]
  rw [if_neg h1]
  by_cases h2 : nd.id ∈ rd.replicas_id
  swap
  · rw [if_pos h2]
  rw [if_neg (not_not_intro h2)]
  by_cases h3 : c.key ≥ rd.start ∧ c.key ≤ rd.«end»
  swap
  · rw [if_pos h3]
  rw [if_neg (not_not_intro h3)]
  have hlast : nd.log.getLast? = some (nd.log.getLast h1) :=
    List.getLast?_eq_getLast nd.log h1
  rw [hlast]
  dsimp only
  have hne : nd.log.getLast h1 ≠ c :=
    hno (nd.log.getLast h1) (List.getLast_mem h1)
  have h4 : c.type ≠ (nd.log.getLast h1).type ∨ c.key ≠ (nd.log.getLast h1).key
      ∨ c.value ≠ (nd.log.getLast h1).value := by
    by_contra h
    push_neg at h
    obtain ⟨e1, e2, e3⟩ := h
    apply hne
    cases c
    cases hgl : nd.log.getLast h1
    rw [hgl] at e1 e2 e3
    simp only at e1 e2 e3
    simp [e1, e2, e3]
  rw [if_pos h4]

/-! Claim C6: pending-entry matching before a write apply. -/

/-- C6: a successful write apply consumed the structurally matching final
pending-log entry (the log was the new log plus the command at its end), and
a write apply for a command matching no pending entry fails with the error
code and mutates neither the store nor the log. -/
theorem claim_C6_pending_match (nd : Node) (c : Command) (rd : RangeDescriptor)
    (hw : c.type ≠ OpType.READ) :
    (0 ≤ (ApplyCommand nd c rd).1 →
      ∃ l, nd.log = l ++ [c] ∧ (ApplyCommand nd c rd).2.log = l)
    ∧ ((∀ e ∈ nd.log, e ≠ c) → ApplyCommand nd c rd = (-1, nd)) := by
  constructor
  · intro hok
    obtain ⟨hmem, hk1, hk2, hdecomp⟩ :=
      ApplyCommand_write_success_guards nd c rd hw hok
    refine ⟨nd.log.dropLast, hdecomp, ?_⟩
    rw [ApplyCommand_write_eq nd c rd hw nd.log.dropLast hdecomp hmem ⟨hk1, hk2⟩]
  · exact ApplyCommand_write_nomatch nd c rd hw

/-- Witness for C6: a successful `UPDATE` apply on a log holding exactly the
command, and a failing apply on a log not containing it. -/
theorem claim_C6_pending_match_witness :
    (0 ≤ (ApplyCommand
        (Node.mk 0 tblA [((5 : Int), (1 : Int))] [Command.mk OpType.UPDATE 5 9])
        (Command.mk OpType.UPDATE 5 9) (RangeDescriptor.mk 0 0 9 0 1 [0, 1, 2])).1 →
      ∃ l, [Command.mk OpType.UPDATE 5 9] = l ++ [Command.mk OpType.UPDATE 5 9]
        ∧ (ApplyCommand
            (Node.mk 0 tblA [((5 : Int), (1 : Int))] [Command.mk OpType.UPDATE 5 9])
            (Command.mk OpType.UPDATE 5 9)
            (RangeDescriptor.mk 0 0 9 0 1 [0, 1, 2])).2.log = l)
    ∧ ((∀ e ∈ [Command.mk OpType.UPDATE 5 9], e ≠ Command.mk OpType.UPDATE 5 9) →
      ApplyCommand
        (Node.mk 0 tblA [((5 : Int), (1 : Int))] [Command.mk OpType.UPDATE 5 9])
        (Command.mk OpType.UPDATE 5 9) (RangeDescriptor.mk 0 0 9 0 1 [0, 1, 2])
        = (-1, Node.mk 0 tblA [((5 : Int), (1 : Int))] [Command.mk OpType.UPDATE 5 9])) :=
  claim_C6_pending_match
    (Node.mk 0 tblA [((5 : Int), (1 : Int))] [Command.mk OpType.UPDATE 5 9])
    (Command.mk OpType.UPDATE 5 9) (RangeDescriptor.mk 0 0 9 0 1 [0, 1, 2])
    (by decide)

/-! Cluster-level helper lemmas. -/

theorem setNode_self (st : ClusterState) (i : Int) (nd : Node) :
    setNode st i nd i = nd := by
  simp [setNode]

theorem setNode_other (st : ClusterState) (i : Int) (nd : Node) (j : Int)
    (h : j ≠ i) : setNode st i nd j = st j := by
  simp [setNode, h]

theorem PushCommandToLogAt_self (st : ClusterState) (i : Int) (c : Command) :
    PushCommandToLogAt st i c i = PushCommandToLog (st i) c := by
  simp [PushCommandToLogAt, setNode_self]

theorem PushCommandToLogAt_other (st : ClusterState) (i : Int) (c : Command)
    (j : Int) (h : j ≠ i) : PushCommandToLogAt st i c j = st j := by
  simp [PushCommandToLogAt, setNode_other _ _ _ _ h]

theorem foldPush_not_mem (rs : List Int) (st : ClusterState) (c : Command)
    (j : Int) (hj : ¬ j ∈ rs) :
    (rs.foldl (fun s r => PushCommandToLogAt s r c) st) j = st j := by
  induction rs generalizing st with
  | nil => rfl
  | cons a rest ih =>
    simp only [List.foldl_cons]
    have hja : j ≠ a := fun h => hj (h ▸ List.mem_cons_self a rest)
    rw [ih (PushCommandToLogAt st a c) fun h => hj (List.mem_cons_of_mem a h)]
    exact PushCommandToLogAt_other st a c j hja

theorem foldPush_mem (rs : List Int) (st : ClusterState) (c : Command)
    (r : Int) (hnd : rs.Nodup) (hr : r ∈ rs) :
    (rs.foldl (fun s r => PushCommandToLogAt s r c) st) r
      = PushCommandToLog (st r) c := by
  induction rs generalizing st with
  | nil => cases hr
  | cons a rest ih =>
    simp only [List.foldl_cons]
    rw [List.nodup_cons] at hnd
    by_cases hra : r = a
    · subst hra
      rw [foldPush_not_mem rest (PushCommandToLogAt st r c) c r hnd.1]
      exact PushCommandToLogAt_self st r c
    · have hr2 : r ∈ rest := by
        rcases List.mem_cons.mp hr with h | h
        · exact absurd h hra
        · exact h
      rw [ih (PushCommandToLogAt st a c) hnd.2 hr2,
        PushCommandToLogAt_other st a c r hra]

theorem foldPush_preserves (rs : List Int) (st : ClusterState) (c : Command)
    (j : Int) :
    ((rs.foldl (fun s r => PushCommandToLogAt s r c) st) j).id = (st j).id
    ∧ ((rs.foldl (fun s r => PushCommandToLogAt s r c) st) j).key_value_store
        = (st j).key_value_store
    ∧ ((rs.foldl (fun s r => PushCommandToLogAt s r c) st) j).interval_start_to_range_descriptor
        = (st j).interval_start_to_range_descriptor := by
  induction rs generalizing st with
  | nil => exact ⟨rfl, rfl, rfl⟩
  | cons a rest ih =>
    simp only [List.foldl_cons]
    obtain ⟨h1, h2, h3⟩ := ih (PushCommandToLogAt st a c)
    by_cases hja : j = a
    · subst hja
      rw [h1, h2, h3, PushCommandToLogAt_self]
      exact ⟨rfl, rfl, rfl⟩
    · rw [h1, h2, h3, PushCommandToLogAt_other st a c j hja]
      exact ⟨rfl, rfl, rfl⟩

theorem storeStep_fail (s : Mp Int) (c : Command) (hf : StateMachineFails s c) :
    storeStep s c = (-1, s) := by
  obtain ⟨t, k, v⟩ := c
  unfold StateMachineFails at hf
  cases t
  case CREATE =>
    unfold storeStep ApplyCreate
    dsimp only at hf ⊢
    rw [if_pos hf]
  case READ => exact absurd hf id
  case UPDATE =>
    unfold storeStep ApplyUpdate
    dsimp only at hf ⊢
    rw [if_neg (by simp [hf])]
  case DELETE =>
    unfold storeStep ApplyDelete
    dsimp only at hf ⊢
    rw [if_neg (by simp [hf])]

/-! Claim C9: a state-machine failure on the leader aborts the commit. -/

/-- C9: when the leader's own state-machine apply of a write fails (for
example a `CREATE` of an existing key), the returned result is the error
code, the command has already been removed from the leader's pending log,
the leader's store is unchanged, no other node's store is touched, and the
command remains appended at the end of every other replica's pending log. -/
theorem claim_C9_leader_apply_failure (st : ClusterState) (nid : Int)
    (c : Command) (rd : RangeDescriptor)
    (hlid : (st nid).id = nid)
    (hleader : rd.leader_id = nid)
    (hw : c.type ≠ OpType.READ)
    (hrep : nid ∈ rd.replicas_id)
    (hnodup : rd.replicas_id.Nodup)
    (hkey : rd.start ≤ c.key ∧ c.key ≤ rd.«end»)
    (hfail : StateMachineFails (st nid).key_value_store c) :
    (ProcessCommand st nid c rd).1 = -1
    ∧ ((ProcessCommand st nid c rd).2 nid).log = (st nid).log
    ∧ ((ProcessCommand st nid c rd).2 nid).key_value_store
        = (st nid).key_value_store
    ∧ ∀ r, r ≠ nid →
        ((ProcessCommand st nid c rd).2 r).key_value_store
          = (st r).key_value_store
        ∧ ((ProcessCommand st nid c rd).2 r).log
            = (st r).log ++ (if r ∈ rd.replicas_id then [c] else []) := by
  have hld : rd.leader_id = (st nid).id := by rw [hlid, hleader]
  have hnotmem : ¬ nid ∈ rd.replicas_id.filter (fun r => r ≠ (st nid).id) := by
    intro h
    have := (List.mem_filter.mp h).2
    simp [hlid] at this
  have hPC : ProcessCommand st nid c rd
      = (-1, setNode ((rd.replicas_id.filter (fun r => r ≠ (st nid).id)).foldl
          (fun s r => PushCommandToLogAt s r c) (PushCommandToLogAt st nid c))
          nid (st nid)) := by
    unfold ProcessCommand
    rw [if_neg (not_not_intro hld), if_neg hw]
    dsimp only
    have hst2nid : (((rd.replicas_id.filter (fun r => r ≠ (st nid).id)).foldl
        (fun s r => PushCommandToLogAt s r c) (PushCommandToLogAt st nid c)) nid)
        = PushCommandToLog (st nid) c := by
      rw [foldPush_not_mem _ _ _ _ hnotmem, PushCommandToLogAt_self]
    have happly : ApplyCommand (((rd.replicas_id.filter (fun r => r ≠ (st nid).id)).foldl
        (fun s r => PushCommandToLogAt s r c) (PushCommandToLogAt st nid c)) nid) c rd
        = (-1, st nid) := by
      rw [hst2nid]
      rw [ApplyCommand_write_eq (PushCommandToLog (st nid) c) c rd hw (st nid).log rfl
        (by simpa [PushCommandToLog, hlid] using hrep) hkey]
      rw [show (PushCommandToLog (st nid) c).key_value_store = (st nid).key_value_store from rfl,
        storeStep_fail (st nid).key_value_store c hfail]
      rfl
    simp only [ApplyCommandAt, happly]
    norm_num
  rw [hPC]
  dsimp only
  refine ⟨rfl, ?_, ?_, ?_⟩
  · rw [setNode_self]
  · rw [setNode_self]
  · intro r hr
    rw [setNode_other _ _ _ _ hr]
    by_cases hmem2 : r ∈ rd.replicas_id
    · have hro : r ∈ rd.replicas_id.filter (fun x => x ≠ (st nid).id) :=
        List.mem_filter.mpr ⟨hmem2, by simp [hlid, hr]⟩
      rw [foldPush_mem _ _ _ _ (hnodup.filter _) hro,
        PushCommandToLogAt_other st nid c r hr]
      exact ⟨rfl, by simp [PushCommandToLog, hmem2]⟩
    · have hro : ¬ r ∈ rd.replicas_id.filter (fun x => x ≠ (st nid).id) := by
        intro h
        exact hmem2 (List.mem_filter.mp h).1
      rw [foldPush_not_mem _ _ _ _ hro, PushCommandToLogAt_other st nid c r hr]
      exact ⟨rfl, by simp [hmem2]⟩

/-- Witness for C9: a `CREATE` of the already-present key `5` on the
concrete cluster `stD` (leader `1` holds no key `5`, so here `UPDATE` of the
absent key `5` on leader node `1` fails). -/
theorem claim_C9_leader_apply_failure_witness :
    (ProcessCommand stD 1 (Command.mk OpType.UPDATE 5 9)
        (RangeDescriptor.mk 0 0 10 1 0 [0, 1, 2])).1 = -1
    ∧ ((ProcessCommand stD 1 (Command.mk OpType.UPDATE 5 9)
        (RangeDescriptor.mk 0 0 10 1 0 [0, 1, 2])).2 1).log = (stD 1).log
    ∧ ((ProcessCommand stD 1 (Command.mk OpType.UPDATE 5 9)
        (RangeDescriptor.mk 0 0 10 1 0 [0, 1, 2])).2 1).key_value_store
        = (stD 1).key_value_store
    ∧ ∀ r, r ≠ 1 →
        ((ProcessCommand stD 1 (Command.mk OpType.UPDATE 5 9)
            (RangeDescriptor.mk 0 0 10 1 0 [0, 1, 2])).2 r).key_value_store
          = (stD r).key_value_store
        ∧ ((ProcessCommand stD 1 (Command.mk OpType.UPDATE 5 9)
            (RangeDescriptor.mk 0 0 10 1 0 [0, 1, 2])).2 r).log
            = (stD r).log
              ++ (if r ∈ (RangeDescriptor.mk 0 0 10 1 0 [0, 1, 2]).replicas_id
                  then [Command.mk OpType.UPDATE 5 9] else []) :=
  claim_C9_leader_apply_failure stD 1 (Command.mk OpType.UPDATE 5 9)
    (RangeDescriptor.mk 0 0 10 1 0 [0, 1, 2]) rfl rfl (by decide) (by decide)
    (by decide) (by decide) (by decide)

/-! Success analysis of the commit loop and of `ProcessCommand`. -/

theorem ApplyCommandAt_one (st : ClusterState) (nid : Int) (c : Command)
    (rd : RangeDescriptor) :
    (ApplyCommandAt st nid c rd).1 = (ApplyCommand (st nid) c rd).1 := rfl

theorem ApplyCommandAt_two (st : ClusterState) (nid : Int) (c : Command)
    (rd : RangeDescriptor) :
    (ApplyCommandAt st nid c rd).2
      = setNode st nid (ApplyCommand (st nid) c rd).2 := rfl

theorem ApplyLoop_cons (st : ClusterState) (r : Int) (rest : List Int)
    (c : Command) (rd : RangeDescriptor) (acc : Int) :
    ApplyLoop st (r :: rest) c rd acc
      = if (ApplyCommandAt st r c rd).1 < 0 then ApplyCommandAt st r c rd
        else ApplyLoop (ApplyCommandAt st r c rd).2 rest c rd
          (ApplyCommandAt st r c rd).1 := rfl

theorem ApplyLoop_success (rs : List Int) (st : ClusterState) (c : Command)
    (rd : RangeDescriptor) (acc : Int) (hw : c.type ≠ OpType.READ)
    (hwf : ∀ j, MpWF (st j).key_value_store)
    (hok : 0 ≤ (ApplyLoop st rs c rd acc).1) :
    (∀ r ∈ rs, mget (((ApplyLoop st rs c rd acc).2 r).key_value_store) c.key
        = (if c.type = OpType.DELETE then none else some c.value))
    ∧ (∀ j, MpWF (((ApplyLoop st rs c rd acc).2 j).key_value_store))
    ∧ (∀ j, ¬ j ∈ rs → (ApplyLoop st rs c rd acc).2 j = st j) := by
  induction rs generalizing st acc with
  | nil => exact ⟨(by intro r hr; cases hr), hwf, fun j _ => rfl⟩
  | cons r rest ih =>
    by_cases hneg : (ApplyCommandAt st r c rd).1 < 0
    · exfalso
      rw [ApplyLoop_cons, if_pos hneg, ApplyCommandAt_one] at hok
      rw [ApplyCommandAt_one] at hneg
      omega
    · have hrok : 0 ≤ (ApplyCommand (st r) c rd).1 := by
        rw [ApplyCommandAt_one] at hneg
        omega
      rw [ApplyLoop_cons, if_neg hneg] at hok ⊢
      obtain ⟨hmem, hk1, hk2, hdecomp⟩ :=
        ApplyCommand_write_success_guards (st r) c rd hw hrok
      have heq := ApplyCommand_write_eq (st r) c rd hw ((st r).log.dropLast)
        hdecomp hmem ⟨hk1, hk2⟩
      have hsucc1 : 0 ≤ (storeStep (st r).key_value_store c).1 := by
        rw [heq] at hrok
        exact hrok
      have hstore : ((ApplyCommandAt st r c rd).2 r).key_value_store
          = (storeStep (st r).key_value_store c).2 := by
        rw [ApplyCommandAt_two, setNode_self, heq]
      have hmget := storeStep_success (st r).key_value_store c hw (hwf r) hsucc1
      have hwf2 : ∀ j, MpWF (((ApplyCommandAt st r c rd).2 j).key_value_store) := by
        intro j
        by_cases hjr : j = r
        · subst hjr
          rw [hstore]
          exact storeStep_wf (st j).key_value_store c (hwf j)
        · rw [ApplyCommandAt_two, setNode_other _ _ _ _ hjr]
          exact hwf j
      obtain ⟨ih1, ih2, ih3⟩ := ih (ApplyCommandAt st r c rd).2
        (ApplyCommandAt st r c rd).1 hwf2 hok
      refine ⟨?_, ih2, ?_⟩
      · intro x hx
        rcases List.mem_cons.mp hx with hxr | hxrest
        · subst hxr
          by_cases hxin : x ∈ rest
          · exact ih1 x hxin
          · rw [ih3 x hxin, hstore]
            exact hmget
        · exact ih1 x hxrest
      · intro j hj
        have hjr : j ≠ r := fun h => hj (h ▸ List.mem_cons_self r rest)
        have hjrest : ¬ j ∈ rest := fun h => hj (List.mem_cons_of_mem r h)
        rw [ih3 j hjrest, ApplyCommandAt_two, setNode_other _ _ _ _ hjr]

theorem ProcessCommand_write_eq (st : ClusterState) (nid : Int) (c : Command)
    (rd : RangeDescriptor) (hld : rd.leader_id = (st nid).id)
    (hw : c.type ≠ OpType.READ) :
    ProcessCommand st nid c rd
      = (if (ApplyCommandAt ((rd.replicas_id.filter (fun r => r ≠ (st nid).id)).foldl
            (fun s r => PushCommandToLogAt s r c) (PushCommandToLogAt st nid c)) nid c rd).1 < 0
         then ApplyCommandAt ((rd.replicas_id.filter (fun r => r ≠ (st nid).id)).foldl
            (fun s r => PushCommandToLogAt s r c) (PushCommandToLogAt st nid c)) nid c rd
         else ApplyLoop (ApplyCommandAt ((rd.replicas_id.filter (fun r => r ≠ (st nid).id)).foldl
            (fun s r => PushCommandToLogAt s r c) (PushCommandToLogAt st nid c)) nid c rd).2
           (rd.replicas_id.filter (fun r => r ≠ (st nid).id)) c rd
           (ApplyCommandAt ((rd.replicas_id.filter (fun r => r ≠ (st nid).id)).foldl
            (fun s r => PushCommandToLogAt s r c) (PushCommandToLogAt st nid c)) nid c rd).1) := by
  unfold ProcessCommand
  rw [if_neg (not_not_intro hld), if_neg hw]

theorem ProcessCommand_write_success (st : ClusterState) (nid : Int)
    (c : Command) (rd : RangeDescriptor)
    (hnid : nid = rd.leader_id) (hw : c.type ≠ OpType.READ)
    (hwf : ∀ j, MpWF (st j).key_value_store)
    (hok : 0 ≤ (ProcessCommand st nid c rd).1) :
    ∀ r ∈ rd.replicas_id,
      mget (((ProcessCommand st nid c rd).2 r).key_value_store) c.key
        = (if c.type = OpType.DELETE then none else some c.value) := by
  by_cases hld : rd.leader_id ≠ (st nid).id
  · exfalso
    unfold ProcessCommand at hok
    rw [if_pos hld] at hok
    norm_num at hok
  rw [not_not] at hld
  have hlid : (st nid).id = nid := by omega
  have hPC := ProcessCommand_write_eq st nid c rd hld hw
  by_cases hneg : (ApplyCommandAt ((rd.replicas_id.filter (fun r => r ≠ (st nid).id)).foldl
      (fun s r => PushCommandToLogAt s r c) (PushCommandToLogAt st nid c)) nid c rd).1 < 0
  · exfalso
    rw [hPC, if_pos hneg, ApplyCommandAt_one] at hok
    rw [ApplyCommandAt_one] at hneg
    omega
  · rw [hPC, if_neg hneg] at hok ⊢
    have hnotmem : ¬ nid ∈ rd.replicas_id.filter (fun r => r ≠ (st nid).id) := by
      intro h
      have := (List.mem_filter.mp h).2
      simp [hlid] at this
    have hst2 : ∀ j, (((rd.replicas_id.filter (fun r => r ≠ (st nid).id)).foldl
        (fun s r => PushCommandToLogAt s r c) (PushCommandToLogAt st nid c)) j).key_value_store
        = (st j).key_value_store := by
      intro j
      rw [(foldPush_preserves _ _ _ j).2.1]
      by_cases hjn : j = nid
      · subst hjn
        rw [PushCommandToLogAt_self]
        rfl
      · rw [PushCommandToLogAt_other _ _ _ _ hjn]
    have hrok : 0 ≤ (ApplyCommand ((((rd.replicas_id.filter (fun r => r ≠ (st nid).id)).foldl
        (fun s r => PushCommandToLogAt s r c) (PushCommandToLogAt st nid c))) nid) c rd).1 := by
      rw [ApplyCommandAt_one] at hneg
      omega
    obtain ⟨hmem, hk1, hk2, hdecomp⟩ :=
      ApplyCommand_write_success_guards _ c rd hw hrok
    have heq := ApplyCommand_write_eq _ c rd hw _ hdecomp hmem ⟨hk1, hk2⟩
    rw [heq] at hrok
    have hwfnid : MpWF ((((rd.replicas_id.filter (fun r => r ≠ (st nid).id)).foldl
        (fun s r => PushCommandToLogAt s r c) (PushCommandToLogAt st nid c)) nid).key_value_store) := by
      rw [hst2 nid]
      exact hwf nid
    have hmget := storeStep_success _ c hw hwfnid hrok
    have hwf3 : ∀ j, MpWF (((ApplyCommandAt ((rd.replicas_id.filter (fun r => r ≠ (st nid).id)).foldl
        (fun s r => PushCommandToLogAt s r c) (PushCommandToLogAt st nid c)) nid c rd).2 j).key_value_store) := by
      intro j
      rw [ApplyCommandAt_two]
      by_cases hjn : j = nid
      · subst hjn
        rw [setNode_self, heq]
        exact storeStep_wf _ c hwfnid
      · rw [setNode_other _ _ _ _ hjn, hst2 j]
        exact hwf j
    obtain ⟨hl1, hl2, hl3⟩ := ApplyLoop_success _ _ c rd _ hw hwf3 hok
    intro r hr
    by_cases hrn : r = (st nid).id
    · have hrnid : r = nid := by omega
      subst hrnid
      have hnotin : ¬ r ∈ rd.replicas_id.filter (fun x => x ≠ (st r).id) := by
        intro h
        have := (List.mem_filter.mp h).2
        simp [hlid] at this
      rw [hl3 r hnotin, ApplyCommandAt_two, setNode_self, heq]
      exact hmget
    · have hin : r ∈ rd.replicas_id.filter (fun x => x ≠ (st nid).id) :=
        List.mem_filter.mpr ⟨hr, by simp [hrn]⟩
      exact hl1 r hin

theorem SendCommandToLeader_write_success (st : ClusterState) (nid : Int)
    (c : Command) (rd : RangeDescriptor) (hw : c.type ≠ OpType.READ)
    (hwf : ∀ j, MpWF (st j).key_value_store)
    (hok : 0 ≤ (SendCommandToLeader st nid c rd).1) :
    ∀ r ∈ rd.replicas_id,
      mget (((SendCommandToLeader st nid c rd).2 r).key_value_store) c.key
        = (if c.type = OpType.DELETE then none else some c.value) := by
  unfold SendCommandToLeader at hok ⊢
  by_cases h : rd.leaseholder_id ≠ (st nid).id
  · rw [if_pos h] at hok
    norm_num at hok
  · rw [if_neg h] at hok ⊢
    exact ProcessCommand_write_success st rd.leader_id c rd rfl hw hwf hok

/-! Claim C1: write durability. -/

/-- C1: when a write command's end-to-end `SendCommand` call succeeds on a
cluster whose nodes all hold the identical range table (and well-formed
stores), every replica in the owning range's replica set afterwards holds an
identical store entry for the command's key: the written value for
`CREATE`/`UPDATE`, and no entry at all for `DELETE`. -/
theorem claim_C1_write_durability (fuel : Nat) (st : ClusterState) (nid : Int)
    (c : Command) (tbl : Mp RangeDescriptor)
    (hsame : ∀ i, (st i).interval_start_to_range_descriptor = tbl)
    (hwf : ∀ i, MpWF (st i).key_value_store)
    (hw : c.type ≠ OpType.READ)
    (hok : 0 ≤ (SendCommand fuel st nid c).1) :
    ∃ p, floorLookup tbl c.key = some p ∧
      ∀ r ∈ p.2.replicas_id,
        mget (((SendCommand fuel st nid c).2 r).key_value_store) c.key
          = (if c.type = OpType.DELETE then none else some c.value) := by
  induction fuel generalizing nid with
  | zero => norm_num [SendCommand] at hok
  | succ fuel ih =>
    unfold SendCommand at hok ⊢
    rw [hsame nid] at hok ⊢
    by_cases htbl : tbl = ([] : Mp RangeDescriptor)
    · rw [if_pos htbl] at hok
      norm_num at hok
    · rw [if_neg htbl] at hok ⊢
      cases hfl : floorLookup tbl c.key with
      | none =>
        rw [hfl] at hok
        dsimp only at hok
        norm_num at hok
      | some p =>
        rw [hfl] at hok
        dsimp only at hok ⊢
        by_cases hls : p.2.leaseholder_id = (st nid).id
        · rw [if_pos hls] at hok ⊢
          exact ⟨p, rfl, SendCommandToLeader_write_success st nid c p.2 hw hwf hok⟩
        · rw [if_neg hls] at hok ⊢
          obtain ⟨q, hq, hcon⟩ := ih p.2.leaseholder_id hok
          exact ⟨q, hfl.symm.trans hq, hcon⟩

/-- Witness for C1: a successful `CREATE` of `(5, 7)` entering at node `3`
of the fresh cluster `stA`. -/
theorem claim_C1_write_durability_witness :
    ∃ p, floorLookup tblA (Command.mk OpType.CREATE 5 7).key = some p ∧
      ∀ r ∈ p.2.replicas_id,
        mget (((SendCommand 2 stA 3 (Command.mk OpType.CREATE 5 7)).2 r).key_value_store)
            (Command.mk OpType.CREATE 5 7).key
          = (if (Command.mk OpType.CREATE 5 7).type = OpType.DELETE
             then none else some (Command.mk OpType.CREATE 5 7).value) :=
  claim_C1_write_durability 2 stA 3 (Command.mk OpType.CREATE 5 7) tblA
    (fun _ => rfl) (fun _ => List.Pairwise.nil) (by decide) (by decide)

/-! Facts about the floor search and routing. -/

theorem floorLookup_none_iff {α : Type} (m : Mp α) (k : Int) :
    floorLookup m k = none ↔ ∀ q ∈ m, k < q.1 := by
  induction m with
  | nil =>
    constructor
    · intro _ q hq
      cases hq
    · intro _
      rfl
  | cons q rest ih =>
    obtain ⟨a, w⟩ := q
    by_cases h1 : a ≤ k
    · simp only [floorLookup, if_pos h1]
      constructor
      · intro h
        exfalso
        cases hfr : floorLookup rest k <;> rw [hfr] at h <;> cases h
      · intro h
        exact absurd h1 (not_le.mpr (h (a, w) (List.mem_cons_self _ _)))
    · simp only [floorLookup, if_neg h1]
      rw [ih]
      constructor
      · intro h q hq
        rcases List.mem_cons.mp hq with hqa | hqr
        · rw [hqa]
          exact lt_of_not_le h1
        · exact h q hqr
      · intro h q hq
        exact h q (List.mem_cons_of_mem _ hq)

theorem floorLookup_mem_le {α : Type} (m : Mp α) (k : Int) (p : Int × α)
    (h : floorLookup m k = some p) : p ∈ m ∧ p.1 ≤ k := by
  induction m with
  | nil => cases h
  | cons q rest ih =>
    obtain ⟨a, w⟩ := q
    by_cases h1 : a ≤ k
    · simp only [floorLookup, if_pos h1] at h
      cases hfr : floorLookup rest k with
      | none =>
        rw [hfr] at h
        cases h
        exact ⟨List.mem_cons_self _ _, h1⟩
      | some q0 =>
        rw [hfr] at h
        cases h
        obtain ⟨hm, hle⟩ := ih hfr
        exact ⟨List.mem_cons_of_mem _ hm, hle⟩
    · simp only [floorLookup, if_neg h1] at h
      obtain ⟨hm, hle⟩ := ih h
      exact ⟨List.mem_cons_of_mem _ hm, hle⟩

theorem floorLookup_greatest {α : Type} (m : Mp α) (k : Int) (p : Int × α)
    (hwf : MpWF m) (h : floorLookup m k = some p) :
    ∀ q ∈ m, q.1 ≤ k → q.1 ≤ p.1 := by
  induction m with
  | nil => cases h
  | cons q0 rest ih =>
    obtain ⟨a, w⟩ := q0
    unfold MpWF at hwf
    rw [List.pairwise_cons] at hwf
    obtain ⟨ha, hrest⟩ := hwf
    intro q hq hqk
    by_cases h1 : a ≤ k
    · simp only [floorLookup, if_pos h1] at h
      cases hfr : floorLookup rest k with
      | none =>
        rw [hfr] at h
        cases h
        rcases List.mem_cons.mp hq with hqa | hqr
        · rw [hqa]
        · exact absurd hqk (not_le.mpr ((floorLookup_none_iff rest k).mp hfr q hqr))
      | some q1 =>
        rw [hfr] at h
        injection h with h2
        subst h2
        rcases List.mem_cons.mp hq with hqa | hqr
        · rw [hqa]
          exact le_of_lt (ha _ (floorLookup_mem_le rest k _ hfr).1)
        · exact ih hrest hfr q hqr hqk
    · simp only [floorLookup, if_neg h1] at h
      rcases List.mem_cons.mp hq with hqa | hqr
      · rw [hqa] at hqk
        exact absurd h1 (not_not_intro hqk)
      · exact ih hrest h q hqr hqk

/-- Routing of any command on a cluster with a shared table: at most one
forwarding hop later, the floor range's leader processes the command. -/
theorem SendCommand_routes (fuel : Nat) (st : ClusterState) (nid : Int)
    (c : Command) (tbl : Mp RangeDescriptor) (p : Int × RangeDescriptor)
    (hsame : ∀ i, (st i).interval_start_to_range_descriptor = tbl)
    (hid : ∀ i, (st i).id = i)
    (hfl : floorLookup tbl c.key = some p) :
    SendCommand (fuel + 2) st nid c = ProcessCommand st p.2.leader_id c p.2 := by
  have htbl : ¬ tbl = ([] : Mp RangeDescriptor) := by
    intro h
    rw [h] at hfl
    simp [floorLookup] at hfl
  unfold SendCommand
  rw [hsame nid, if_neg htbl, hfl]
  dsimp only
  by_cases hls : p.2.leaseholder_id = (st nid).id
  · rw [if_pos hls]
    unfold SendCommandToLeader
    rw [if_neg (not_not_intro hls)]
  · rw [if_neg hls]
    unfold SendCommand
    rw [hsame p.2.leaseholder_id, if_neg htbl, hfl]
    dsimp only
    rw [if_pos ((hid p.2.leaseholder_id).symm)]
    unfold SendCommandToLeader
    rw [if_neg (not_not_intro ((hid p.2.leaseholder_id).symm))]

/-! Claim C2 (corrected): reads are answered by the leader, not the
leaseholder. -/

/-- Counterexample to C2 as stated: on cluster `stB` node `1` is the owning
range's leaseholder and its own local store answers `7` for key `5`, yet the
`Read` entering at node `1` returns `-1` — the read was forwarded to the
leader (node `0`, whose store is empty) instead of being answered locally by
the leaseholder. -/
theorem claim_C2_counterexample :
    (SendCommand 2 stB 1 (Command.mk OpType.READ 5 0)).1 = -1
    ∧ ApplyRead ((stB 1).key_value_store) 5 = 7
    ∧ (floorLookup tblA 5).map (fun p => p.2.leaseholder_id) = some 1 := by
  refine ⟨by decide, by decide, by decide⟩

/-- C2 as amended: every command (reads included) is forwarded via the
leaseholder to the owning range's leader; a read is answered from the
leader's own local store and changes no node's state. -/
theorem claim_C2_reads_answered_by_leader (fuel : Nat) (st : ClusterState)
    (nid : Int) (c : Command) (tbl : Mp RangeDescriptor)
    (p : Int × RangeDescriptor)
    (hsame : ∀ i, (st i).interval_start_to_range_descriptor = tbl)
    (hid : ∀ i, (st i).id = i)
    (hfl : floorLookup tbl c.key = some p) :
    SendCommand (fuel + 2) st nid c = ProcessCommand st p.2.leader_id c p.2
    ∧ (c.type = OpType.READ →
        (SendCommand (fuel + 2) st nid c).1
            = ApplyRead ((st p.2.leader_id).key_value_store) c.key
        ∧ ∀ j, (SendCommand (fuel + 2) st nid c).2 j = st j) := by
  have hroute := SendCommand_routes fuel st nid c tbl p hsame hid hfl
  refine ⟨hroute, fun hr => ?_⟩
  rw [hroute]
  unfold ProcessCommand
  rw [if_neg (not_not_intro ((hid p.2.leader_id).symm)), if_pos hr]
  constructor
  · rw [ApplyCommandAt_one]
    unfold ApplyCommand
    rw [if_pos hr]
  · intro j
    rw [ApplyCommandAt_two]
    unfold ApplyCommand
    rw [if_pos hr]
    by_cases hj : j = p.2.leader_id
    · subst hj
      rw [setNode_self]
    · rw [setNode_other _ _ _ _ hj]

/-- Witness for the amended C2 on the concrete cluster `stB`. -/
theorem claim_C2_reads_answered_by_leader_witness :
    SendCommand 2 stB 1 (Command.mk OpType.READ 5 0)
        = ProcessCommand stB ((0 : Int), RangeDescriptor.mk 0 0 9 0 1 [0, 1, 2]).2.leader_id
            (Command.mk OpType.READ 5 0)
            ((0 : Int), RangeDescriptor.mk 0 0 9 0 1 [0, 1, 2]).2
    ∧ ((Command.mk OpType.READ 5 0).type = OpType.READ →
        (SendCommand 2 stB 1 (Command.mk OpType.READ 5 0)).1
            = ApplyRead ((stB ((0 : Int), RangeDescriptor.mk 0 0 9 0 1 [0, 1, 2]).2.leader_id).key_value_store)
                (Command.mk OpType.READ 5 0).key
        ∧ ∀ j, (SendCommand 2 stB 1 (Command.mk OpType.READ 5 0)).2 j = stB j) :=
  claim_C2_reads_answered_by_leader 0 stB 1 (Command.mk OpType.READ 5 0) tblA
    ((0 : Int), RangeDescriptor.mk 0 0 9 0 1 [0, 1, 2])
    (fun _ => rfl) (fun _ => rfl) (by decide)

/-! Claim C3 (corrected): the floor search has no end validation. -/

/-- Counterexample to C3 as stated: on cluster `stC` the key `101` is
strictly greater than its floor descriptor's end `100`, yet `SendCommand`
does not return a routing error — the key is routed to that range and the
read even succeeds with value `42` from the leader's store. -/
theorem claim_C3_counterexample :
    (SendCommand 2 stC 0 (Command.mk OpType.READ 101 0)).1 = 42
    ∧ (floorLookup tblA 101).map (fun p => p.2.«end») = some 100 := by
  refine ⟨by decide, by decide⟩

/-- C3 as amended: the lookup at the start of `SendCommand` is a floor
search on the descriptor starts (greatest start at most the key), and a
routing error is returned exactly when no descriptor starts at or before
the key; there is no validation of the floor match's end — the command is
routed to the floor range's leader with no condition on `end`, so a key
greater than the matched descriptor's end is still routed to that range. -/
theorem claim_C3_floor_routing (fuel : Nat) (st : ClusterState) (nid : Int)
    (c : Command) (tbl : Mp RangeDescriptor)
    (hsame : ∀ i, (st i).interval_start_to_range_descriptor = tbl)
    (hid : ∀ i, (st i).id = i)
    (hwftbl : MpWF tbl) :
    (floorLookup tbl c.key = none →
      (∀ q ∈ tbl, c.key < q.1) ∧ SendCommand (fuel + 1) st nid c = (-1, st))
    ∧ ∀ p, floorLookup tbl c.key = some p →
        p.1 ≤ c.key ∧ (∀ q ∈ tbl, q.1 ≤ c.key → q.1 ≤ p.1)
        ∧ SendCommand (fuel + 2) st nid c = ProcessCommand st p.2.leader_id c p.2 := by
  constructor
  · intro hnone
    refine ⟨(floorLookup_none_iff tbl c.key).mp hnone, ?_⟩
    unfold SendCommand
    rw [hsame nid]
    by_cases htbl : tbl = ([] : Mp RangeDescriptor)
    · rw [if_pos htbl]
    · rw [if_neg htbl, hnone]
  · intro p hfl
    exact ⟨(floorLookup_mem_le tbl c.key p hfl).2,
      floorLookup_greatest tbl c.key p hwftbl hfl,
      SendCommand_routes fuel st nid c tbl p hsame hid hfl⟩

/-- Witness for the amended C3 on the concrete cluster `stC` (key `101`
beyond the last range's end `100`). -/
theorem claim_C3_floor_routing_witness :
    (floorLookup tblA (Command.mk OpType.READ 101 0).key = none →
      (∀ q ∈ tblA, (Command.mk OpType.READ 101 0).key < q.1)
      ∧ SendCommand 1 stC 0 (Command.mk OpType.READ 101 0) = (-1, stC))
    ∧ ∀ p, floorLookup tblA (Command.mk OpType.READ 101 0).key = some p →
        p.1 ≤ (Command.mk OpType.READ 101 0).key
        ∧ (∀ q ∈ tblA, q.1 ≤ (Command.mk OpType.READ 101 0).key → q.1 ≤ p.1)
        ∧ SendCommand 2 stC 0 (Command.mk OpType.READ 101 0)
            = ProcessCommand stC p.2.leader_id (Command.mk OpType.READ 101 0) p.2 :=
  claim_C3_floor_routing 0 stC 0 (Command.mk OpType.READ 101 0) tblA
    (fun _ => rfl) (fun _ => rfl) (by decide)

/-! Claim C4 (corrected): partition coverage of the bootstrap range table. -/

theorem mkDesc_start (n rf : Nat) (maxKey : Int) (draw i : Nat) :
    (mkDesc n rf maxKey draw i).start = (i : Int) * rangeSize n maxKey := rfl

theorem mkDesc_end (n rf : Nat) (maxKey : Int) (draw i : Nat) :
    (mkDesc n rf maxKey draw i).«end»
      = if i = n * 2 - 1 then maxKey
        else ((i : Int) + 1) * rangeSize n maxKey - 1 := rfl

theorem mset_append {α : Type} (m : Mp α) (k : Int) (v : α)
    (h : ∀ q ∈ m, q.1 < k) : mset m k v = m ++ [(k, v)] := by
  induction m with
  | nil => rfl
  | cons q rest ih =>
    obtain ⟨a, w⟩ := q
    have ha : a < k := h (a, w) (List.mem_cons_self _ _)
    simp only [mset, if_neg (by omega : ¬ k < a), if_neg (by omega : ¬ k = a),
      List.cons_append]
    rw [ih fun q hq => h q (List.mem_cons_of_mem _ hq)]

theorem build_fold_eq (f : Nat → RangeDescriptor)
    (hmono : ∀ i j, i < j → (f i).start < (f j).start) (t : Nat) :
    (List.range t).foldl (fun m i => mset m (f i).start (f i)) ([] : Mp RangeDescriptor)
      = (List.range t).map (fun i => ((f i).start, f i)) := by
  induction t with
  | zero => rfl
  | succ t ih =>
    rw [List.range_succ, List.foldl_append, List.map_append, ih]
    simp only [List.foldl_cons, List.foldl_nil, List.map_cons, List.map_nil]
    apply mset_append
    intro q hq
    obtain ⟨i, hi, hqe⟩ := List.mem_map.mp hq
    rw [← hqe]
    exact hmono i t (List.mem_range.mp hi)

theorem buildTable_eq (n rf : Nat) (maxKey : Int) (leaders : Nat → Nat)
    (hs : 1 ≤ rangeSize n maxKey) :
    buildTable n rf maxKey leaders
      = (List.range (n * 2)).map
          (fun i => ((mkDesc n rf maxKey (leaders i) i).start,
            mkDesc n rf maxKey (leaders i) i)) := by
  unfold buildTable
  exact build_fold_eq (fun i => mkDesc n rf maxKey (leaders i) i)
    (fun i j hij => by
      rw [mkDesc_start, mkDesc_start]
      have hij2 : (i : Int) < (j : Int) := by exact_mod_cast hij
      have hspos : 0 < rangeSize n maxKey := by omega
      exact mul_lt_mul_of_pos_right hij2 hspos)
    (n * 2)

/-- Counterexample to C4 as stated: `node_count = 3`, `replication_factor
= 3` satisfy the bootstrap constraints and `MAX_KEY = 1` is positive, yet
the constructed table holds a single descriptor instead of `2 × 3 = 6`
(with `range_size = 0` every range starts at `0`, so the map keyed by
`start` retains only the last insertion). -/
theorem claim_C4_counterexample :
    0 < (1 : Int) ∧ (buildTable 3 3 1 (fun _ => 0)).length = 1
    ∧ (1 : Nat) ≠ 2 * 3 := by
  refine ⟨by decide, by decide, by decide⟩

/-- C4 as amended: for every `node_count` and `replication_factor` accepted
by bootstrap and every `MAX_KEY` of at least `2 × node_count` (so that the
computed `range_size` is at least `1`), the constructed table holds
`2 × node_count` descriptors with `0 ≤ start ≤ end ≤ MAX_KEY`, consecutive
descriptors have `end < start` of the next (pairwise disjointness), and a
key lies in `[0, MAX_KEY]` exactly when some descriptor's interval contains
it (exact coverage). -/
theorem claim_C4_partition (n rf : Nat) (maxKey : Int) (leaders : Nat → Nat)
    (hn : 3 ≤ n) (hrf3 : 3 ≤ rf) (hrfn : rf ≤ n)
    (hmk : 2 * (n : Int) ≤ maxKey) :
    (buildTable n rf maxKey leaders).length = 2 * n
    ∧ (∀ q ∈ buildTable n rf maxKey leaders,
        0 ≤ q.2.start ∧ q.2.start ≤ q.2.«end» ∧ q.2.«end» ≤ maxKey)
    ∧ (∀ k : Int, (0 ≤ k ∧ k ≤ maxKey) ↔
        ∃ q ∈ buildTable n rf maxKey leaders, q.2.start ≤ k ∧ k ≤ q.2.«end»)
    ∧ List.Pairwise (fun q q2 => q.2.«end» < q2.2.start)
        (buildTable n rf maxKey leaders) := by
  have hN : ((n * 2 : Nat) : Int) = 2 * (n : Int) := by push_cast; ring
  have hNpos : (0 : Int) < ((n * 2 : Nat) : Int) := by
    rw [hN]
    omega
  have hs : 1 ≤ rangeSize n maxKey := by
    unfold rangeSize
    rw [Int.le_ediv_iff_mul_le hNpos, one_mul, hN]
    exact hmk
  have hspos : (0 : Int) < rangeSize n maxKey := by omega
  have hNs : ((n * 2 : Nat) : Int) * rangeSize n maxKey ≤ maxKey := by
    have := Int.ediv_mul_le maxKey (show ((n * 2 : Nat) : Int) ≠ 0 by omega)
    unfold rangeSize
    linarith [this]
  have htbl := buildTable_eq n rf maxKey leaders hs
  have hlast : ((n * 2 - 1 : Nat) : Int) = 2 * (n : Int) - 1 := by omega
  -- bounds of each descriptor
  have hbounds : ∀ i : Nat, i < n * 2 →
      0 ≤ (mkDesc n rf maxKey (leaders i) i).start
      ∧ (mkDesc n rf maxKey (leaders i) i).start
          ≤ (mkDesc n rf maxKey (leaders i) i).«end»
      ∧ (mkDesc n rf maxKey (leaders i) i).«end» ≤ maxKey := by
    intro i hi
    rw [mkDesc_start, mkDesc_end]
    have hi0 : (0 : Int) ≤ (i : Int) := by positivity
    refine ⟨by positivity, ?_, ?_⟩
    · by_cases hil : i = n * 2 - 1
      · rw [if_pos hil]
        have hic : (i : Int) = 2 * (n : Int) - 1 := by omega
        rw [hic]
        nlinarith
      · rw [if_neg hil]
        nlinarith
    · by_cases hil : i = n * 2 - 1
      · rw [if_pos hil]
      · rw [if_neg hil]
        have hic : (i : Int) + 1 ≤ 2 * (n : Int) := by omega
        nlinarith
  refine ⟨?_, ?_, ?_, ?_⟩
  · rw [htbl, List.length_map, List.length_range]
    omega
  · intro q hq
    rw [htbl] at hq
    obtain ⟨i, hi, hqe⟩ := List.mem_map.mp hq
    rw [← hqe]
    exact hbounds i (List.mem_range.mp hi)
  · intro k
    constructor
    · rintro ⟨hk0, hkm⟩
      have hq0 : 0 ≤ k / rangeSize n maxKey := Int.ediv_nonneg hk0 (le_of_lt hspos)
      have hde : rangeSize n maxKey * (k / rangeSize n maxKey) + k % rangeSize n maxKey = k :=
        Int.ediv_add_emod k (rangeSize n maxKey)
      have hr0 : 0 ≤ k % rangeSize n maxKey :=
        Int.emod_nonneg k (by omega)
      have hrlt : k % rangeSize n maxKey < rangeSize n maxKey :=
        Int.emod_lt_of_pos k hspos
      by_cases hql : k / rangeSize n maxKey < 2 * (n : Int) - 1
      · refine ⟨((mkDesc n rf maxKey (leaders (k / rangeSize n maxKey).toNat)
            (k / rangeSize n maxKey).toNat).start,
            mkDesc n rf maxKey (leaders (k / rangeSize n maxKey).toNat)
              (k / rangeSize n maxKey).toNat), ?_, ?_, ?_⟩
        · rw [htbl]
          refine List.mem_map.mpr ⟨(k / rangeSize n maxKey).toNat,
            List.mem_range.mpr ?_, rfl⟩
          omega
        · rw [mkDesc_start, Int.toNat_of_nonneg hq0]
          nlinarith
        · rw [mkDesc_end, if_neg (by omega : ¬ (k / rangeSize n maxKey).toNat = n * 2 - 1),
            Int.toNat_of_nonneg hq0]
          nlinarith
      · refine ⟨((mkDesc n rf maxKey (leaders (n * 2 - 1)) (n * 2 - 1)).start,
            mkDesc n rf maxKey (leaders (n * 2 - 1)) (n * 2 - 1)), ?_, ?_, ?_⟩
        · rw [htbl]
          exact List.mem_map.mpr ⟨n * 2 - 1, List.mem_range.mpr (by omega), rfl⟩
        · rw [mkDesc_start, hlast]
          have h1 : (2 * (n : Int) - 1) * rangeSize n maxKey
              ≤ (k / rangeSize n maxKey) * rangeSize n maxKey :=
            mul_le_mul_of_nonneg_right (by omega) (le_of_lt hspos)
          nlinarith
        · rw [mkDesc_end, if_pos rfl]
          exact hkm
    · rintro ⟨q, hq, hq1, hq2⟩
      rw [htbl] at hq
      obtain ⟨i, hi, hqe⟩ := List.mem_map.mp hq
      obtain ⟨hb1, hb2, hb3⟩ := hbounds i (List.mem_range.mp hi)
      rw [← hqe] at hq1 hq2
      exact ⟨le_trans hb1 hq1, le_trans hq2 hb3⟩
  · rw [htbl, List.pairwise_map]
    refine List.Pairwise.imp_of_mem ?_ (List.pairwise_lt_range (n * 2))
    intro i j hi hj hij
    rw [List.mem_range] at hi hj
    rw [mkDesc_end, mkDesc_start,
      if_neg (by omega : ¬ i = n * 2 - 1)]
    have hij2 : (i : Int) + 1 ≤ (j : Int) := by omega
    nlinarith

/-- Witness for the amended C4 at `node_count = 3`, `replication_factor
= 3`, `MAX_KEY = 100`. -/
theorem claim_C4_partition_witness :
    (buildTable 3 3 100 (fun _ => 0)).length = 2 * 3
    ∧ (∀ q ∈ buildTable 3 3 100 (fun _ => 0),
        0 ≤ q.2.start ∧ q.2.start ≤ q.2.«end» ∧ q.2.«end» ≤ 100)
    ∧ (∀ k : Int, (0 ≤ k ∧ k ≤ 100) ↔
        ∃ q ∈ buildTable 3 3 100 (fun _ => 0), q.2.start ≤ k ∧ k ≤ q.2.«end»)
    ∧ List.Pairwise (fun q q2 => q.2.«end» < q2.2.start)
        (buildTable 3 3 100 (fun _ => 0)) :=
  claim_C4_partition 3 3 100 (fun _ => 0) (by decide) (by decide) (by decide)
    (by decide)
